import Mathlib

/-!
Shallow embedding of the tariff persistence and cost-accrual engine of the
`tariff_saver` Home-Assistant integration (`custom_components/tariff_saver/`,
mainly `storage.py` and the price helper in `api.py`).

Modelling conventions:
* UTC instants (Python timezone-aware `datetime`s) are epoch seconds as `Int`;
  sample timestamps (Python `float` epochs) are `ℚ`.  `dt_util.as_utc` on an
  aware datetime preserves the instant and is modelled as the identity;
  `datetime.isoformat` keys are injective and order-preserving on instants, so
  ISO-string dictionary keys are modelled as the instant itself.
* Python floats are modelled as exact rationals `ℚ` (the spec's properties are
  stated modulo floating-point tolerance).
* Python dicts with string keys are association lists `List (String × ℚ)`
  (first occurrence of a key is the binding, as produced by dict operations);
  dict writes update the first occurrence in place or append, like CPython's
  insertion-ordered dicts.
* `dt_util.utcnow()` (used only by the retention trims) is passed explicitly
  as a `wall` parameter.
* The `while` loop of `finalize_due_slots` is encoded as structural recursion
  on a fuel that over-approximates the number of iterations; the fuel choice
  is proved sufficient (`bookLoopF_post`), so the encoding agrees with the
  source loop.
-/

namespace TariffSaver

/-- Component maps: Python `dict[str, float]`. -/
abbrev SMap := List (String × ℚ)

/-- Python `dict.get(k)`: value of the first binding of `k`, if any. -/
def dictGet (m : SMap) (k : String) : Option ℚ :=
  match m with
  | [] => none
  | (k', v) :: rest => if k' = k then some v else dictGet rest k

/-- Python `dict.get(k, d)`. -/
def dictGetD (m : SMap) (k : String) (d : ℚ) : ℚ :=
  (dictGet m k).getD d

/-- Python `m[k] = v`: overwrite the first binding or append a new one. -/
def dictSet (m : SMap) (k : String) (v : ℚ) : SMap :=
  match m with
  | [] => [(k, v)]
  | (k', v') :: rest => if k' = k then (k, v) :: rest else (k', v') :: dictSet rest k v

/-- Python `m[k] = m.get(k, 0.0) + v`: add into the first binding or append. -/
def dictAdd (m : SMap) (k : String) (v : ℚ) : SMap :=
  match m with
  | [] => [(k, v)]
  | (k', v') :: rest => if k' = k then (k', v' + v) :: rest else (k', v') :: dictAdd rest k v

/-- Total value filed under key `k` (equals `dictGetD m k 0` on genuine dicts,
whose keys are unique; stated over all bindings so it is iteration-faithful). -/
def sumKey (m : SMap) (k : String) : ℚ :=
  ((m.filter (fun kv => kv.1 = k)).map (fun kv => kv.2)).sum

/-- A stored price slot value (storage.py v4 shape):
`dyn`, optional `base` component maps (CHF/kWh) and optional `api_integrated`. -/
structure PriceEntry where
  dyn : SMap
  base : Option SMap
  apiIntegrated : Option ℚ
  deriving DecidableEq, Repr

/-- One element of `TariffSaverStore.booked`: start (UTC instant of the ISO
string), consumption, status and the three per-component cost maps (CHF). -/
structure BookedSlot where
  start : Int
  kwh : ℚ
  status : String
  dyn : SMap
  base : SMap
  sav : SMap
  deriving DecidableEq, Repr

/-- One element of `TariffSaverStore.samples`: float epoch and cumulative kWh. -/
structure Sample where
  ts : ℚ
  kwh : ℚ
  deriving DecidableEq, Repr

/-- The in-memory state of `TariffSaverStore`. -/
structure Store where
  priceSlots : List (Int × PriceEntry)
  samples : List Sample
  booked : List BookedSlot
  lastApiSuccessUtc : Option Int
  dirty : Bool
  deriving DecidableEq, Repr

/-- Models `TariffSaverStore.__init__`: empty collections, `dirty = False`. -/
def emptyStore : Store := ⟨[], [], [], none, false⟩

/-- Models `TariffSaverStore._slot_start_utc`: floor the minute to a multiple of 15
and zero the seconds/microseconds, i.e. floor the instant to the 900 s grid. -/
def slotStartUtc (ts : Int) : Int := 900 * ts.fdiv 900

/-- Models `_slot_start_utc` applied to a datetime built from a float epoch. -/
def slotStartOfRat (ts : ℚ) : Int := slotStartUtc ⌊ts⌋

/-- Association-list lookup for the price-slot dict (ISO key = instant). -/
def priceFind (ps : List (Int × PriceEntry)) (k : Int) : Option PriceEntry :=
  match ps with
  | [] => none
  | (k', v) :: rest => if k' = k then some v else priceFind rest k

/-- Association-list write for the price-slot dict. -/
def priceSet (ps : List (Int × PriceEntry)) (k : Int) (v : PriceEntry) :
    List (Int × PriceEntry) :=
  match ps with
  | [] => [(k, v)]
  | (k', v') :: rest => if k' = k then (k, v) :: rest else (k', v') :: priceSet rest k v

/-- Python truthiness of the optional base map in `set_price_slot`
(`if base_components_chf_per_kwh:`): `None` and the empty dict are falsy. -/
def normBase (base : Option SMap) : Option SMap :=
  match base with
  | none => none
  | some l => if l = [] then none else some l

/-- Models `TariffSaverStore.set_price_slot`: store the entry under the exact
(UTC-normalized) `start_utc` key; no flooring, no rejection.  The numeric
`float(v)` filtering of the component maps is the identity in the ℚ model. -/
def setPriceSlot (st : Store) (startUtc : Int) (dyn : SMap) (base : Option SMap)
    (apiIntegrated : Option ℚ) : Store :=
  { st with
    priceSlots := priceSet st.priceSlots startUtc ⟨dyn, normBase base, apiIntegrated⟩
    dirty := true }

/-- Models `TariffSaverStore.get_price_components`: lookup by the exact key; a present
entry always has a dict `dyn` in the typed model, so it is returned as `some`. -/
def getPriceComponents (ps : List (Int × PriceEntry)) (startUtc : Int) :
    Option SMap × Option SMap × Option ℚ :=
  match priceFind ps startUtc with
  | none => (none, none, none)
  | some e => (some e.dyn, e.base, e.apiIntegrated)

/-- Models `TariffSaverStore.trim_price_slots`: drop keys before `wall − keepDays`
(ISO-string comparison is chronological); `dirty` only when something changed. -/
def trimPriceSlots (st : Store) (wall : Int) (keepDays : Int) : Store :=
  let cutoff := wall - keepDays * 86400
  let kept := st.priceSlots.filter (fun kv => cutoff ≤ kv.1)
  { st with
    priceSlots := kept
    dirty := if kept.length ≠ st.priceSlots.length then true else st.dirty }

/-- Models `TariffSaverStore._trim_samples`: keep samples with `ts ≥ wall − keepDays`. -/
def trimSamplesList (l : List Sample) (wall : Int) (keepDays : Int) : List Sample :=
  l.filter (fun s => ((wall - keepDays * 86400 : Int) : ℚ) ≤ s.ts)

/-- Models `TariffSaverStore.add_sample`: suppress a near-duplicate of the last stored
sample (|Δts| < 1e-6), else append, trim to 14 days and mark dirty. -/
def addSample (st : Store) (tsUtc : Int) (kwhTotal : ℚ) (wall : Int) : Store × Bool :=
  let epoch : ℚ := (tsUtc : ℚ)
  let dup : Bool :=
    match st.samples.getLast? with
    | some s => decide (|s.ts - epoch| < 1 / 1000000)
    | none => false
  if dup then (st, false)
  else
    ({ st with
        samples := trimSamplesList (st.samples ++ [⟨epoch, kwhTotal⟩]) wall 14
        dirty := true }, true)

/-- Models `TariffSaverStore._trim_booked`: keep booked entries with
`start ≥ wall − keepDays` (all starts parse in the typed model). -/
def trimBookedList (l : List BookedSlot) (wall : Int) (keepDays : Int) : List BookedSlot :=
  l.filter (fun b => wall - keepDays * 86400 ≤ b.start)

/-- The sorted `sample_points` of `finalize_due_slots`: every sample converts
(`datetime.fromtimestamp` then `as_utc` preserves the instant), then a stable
sort by timestamp.  `insertAfterLe`/`sortByTs` is a stable insertion sort
(left fold), matching Python's stable `list.sort`. -/
def insertAfterLe (x : Sample) : List Sample → List Sample
  | [] => [x]
  | y :: ys => if y.ts ≤ x.ts then y :: insertAfterLe x ys else x :: y :: ys

/-- Stable sort of the samples by timestamp. -/
def sortByTs (l : List Sample) : List Sample :=
  l.foldl (fun acc x => insertAfterLe x acc) []

/-- The nested `kwh_at(t)` of `finalize_due_slots`: walk the sorted points,
remember the last value with timestamp ≤ t, break at the first later point. -/
def kwhAt (pts : List Sample) (t : ℚ) : Option ℚ :=
  match pts with
  | [] => none
  | p :: rest =>
    if p.ts ≤ t then
      match kwhAt rest t with
      | some k => some k
      | none => some p.kwh
    else none

/-- One iteration body of the booking loop in `finalize_due_slots`: the record
appended by `_append_booked` for the slot starting at `cursor` (all branches of
the loop body after the cutoff checks). -/
def bookRecord (ps : List (Int × PriceEntry)) (pts : List Sample) (cursor : Int) :
    BookedSlot :=
  match kwhAt pts (cursor : ℚ), kwhAt pts ((cursor + 900 : Int) : ℚ) with
  | none, _ => ⟨cursor, 0, "missing_samples", [], [], []⟩
  | some _, none => ⟨cursor, 0, "missing_samples", [], [], []⟩
  | some kwhStart, some kwhEnd =>
    let delta := kwhEnd - kwhStart
    if delta < 0 then ⟨cursor, 0, "invalid", [], [], []⟩
    else
      match (getPriceComponents ps cursor).1 with
      | none => ⟨cursor, delta, "unpriced", [], [], []⟩
      | some dynPrices =>
        if dynPrices = [] then ⟨cursor, delta, "unpriced", [], [], []⟩
        else
          let dynCost := dynPrices.foldl
            (fun acc cp => if cp.2 ≠ 0 then dictSet acc cp.1 (delta * cp.2) else acc) []
          let basePrices := (getPriceComponents ps cursor).2.1.getD []
          let baseCost := basePrices.foldl
            (fun acc cp => if cp.2 ≠ 0 then dictSet acc cp.1 (delta * cp.2) else acc) []
          let savCost := baseCost.foldl
            (fun acc cb =>
              match dictGet dynCost cb.1 with
              | some d => dictSet acc cb.1 (cb.2 - d)
              | none => acc) []
          let status := if dynCost = [] then "unpriced" else "ok"
          ⟨cursor, delta, status, dynCost, baseCost, savCost⟩

/-- The `while cursor < end_slot` loop of `finalize_due_slots`, returning the
list of newly appended booked slots.  Structural recursion on `fuel`; the
caller passes enough fuel for the loop to reach its exit condition
(`bookLoopF_post` below proves the chosen fuel sufficient). -/
def bookLoopF (ps : List (Int × PriceEntry)) (pts : List Sample)
    (cutoff endSlot : Int) : Nat → Int → List BookedSlot
  | 0, _ => []
  | fuel + 1, cursor =>
    if cursor < endSlot then
      if cursor + 900 > cutoff then []
      else bookRecord ps pts cursor :: bookLoopF ps pts cutoff endSlot fuel (cursor + 900)
    else []

/-- Fuel that strictly dominates the iteration count of the booking loop. -/
def fuelFor (endSlot cursor : Int) : Nat := (endSlot - cursor).toNat / 900 + 2

/-- The initial booking cursor of `finalize_due_slots`: one slot past the last
booked entry, else the 15-minute floor of the earliest (sorted) sample. -/
def initialCursor (st : Store) : Int :=
  match st.booked.getLast? with
  | some b => b.start + 900
  | none =>
    match sortByTs st.samples with
    | p :: _ => slotStartOfRat p.ts
    | [] => 0

/-- The list of slots newly appended by `finalize_due_slots st now` (the loop
part; independent of the wall clock used by the retention trim). -/
def finalizeCore (st : Store) (nowUtc : Int) : List BookedSlot :=
  let cutoff := nowUtc - 60
  if st.samples.length < 2 then []
  else
    match sortByTs st.samples with
    | [] => []
    | _ :: _ =>
      let endSlot := slotStartUtc cutoff
      let c0 := initialCursor st
      bookLoopF st.priceSlots (sortByTs st.samples) cutoff endSlot (fuelFor endSlot c0) c0

/-- Models `TariffSaverStore.finalize_due_slots`: append the newly booked slots, and
when anything was booked run the 400-day booked trim (at wall-clock `wall`)
and mark dirty; return the new store and the count of newly booked slots. -/
def finalizeDueSlots (st : Store) (nowUtc : Int) (wall : Int) : Store × Nat :=
  let appended := finalizeCore st nowUtc
  if appended.length ≠ 0 then
    ({ st with
        booked := trimBookedList (st.booked ++ appended) wall 400
        dirty := true }, appended.length)
  else (st, 0)

/-- The three buckets returned by `_sum_between_local` (dict keys
`dyn`/`base`/`sav`). -/
structure Breakdown where
  dyn : SMap
  base : SMap
  sav : SMap
  deriving DecidableEq, Repr

/-- Inner accumulation of `_sum_between_local`: fold one booked cost map into
an accumulator bucket (`out[bucket][comp] = out[bucket].get(comp, 0.0) + val`). -/
def addMapInto (acc : SMap) (m : SMap) : SMap :=
  m.foldl (fun a cv => dictAdd a cv.1 cv.2) acc

/-- One iteration of the `_sum_between_local` loop: fold a booked slot's maps
into the accumulator when its start lies in the window. -/
def sumStep (startUtc endUtc : Int) (out : Breakdown) (b : BookedSlot) : Breakdown :=
  if startUtc ≤ b.start ∧ b.start < endUtc then
    ⟨addMapInto out.dyn b.dyn, addMapInto out.base b.base, addMapInto out.sav b.sav⟩
  else out

/-- Models `TariffSaverStore._sum_between_local`: sum the dyn/base/sav maps of every
booked slot whose start lies in `[startUtc, endUtc)` (both bounds are the UTC
instants of the local window). -/
def sumBetweenLocal (st : Store) (startUtc endUtc : Int) : Breakdown :=
  st.booked.foldl (sumStep startUtc endUtc) ⟨[], [], []⟩

/-- The `today` branch of `TariffSaverStore._period_bounds`: local midnight to
local midnight + 1 day, for a fixed local UTC offset `off` (the civil-calendar
month/year branches are not needed by the claims and are not modelled). -/
def periodBoundsToday (now off : Int) : Int × Int :=
  let dayStart := 86400 * (now + off).fdiv 86400 - off
  (dayStart, dayStart + 86400)

/-- Models `TariffSaverStore.compute_today_breakdown` (the `today` period of
`compute_period_breakdown`), with the current local time given as the UTC
instant `now` and the local offset `off`. -/
def computeTodayBreakdown (st : Store) (now off : Int) : Breakdown :=
  let bounds := periodBoundsToday now off
  sumBetweenLocal st bounds.1 bounds.2

/-! ### The persisted document (`_as_dict` / `async_load`)

`async_load` accepts the current v4 shape as well as the legacy v2/v3 shapes
described at the top of `storage.py`.  The document is modelled with one typed
variant per accepted shape; JSON values the loader skips (non-dict slots,
unparseable timestamps, non-numeric fields) are outside the typed model. -/

/-- A `price_slots` value: legacy numeric `dyn`/`base`, or the v4 entry dict. -/
inductive PriceVal where
  | legacyNum (dyn : ℚ) (base : Option ℚ)
  | entry (e : PriceEntry)
  deriving DecidableEq, Repr

/-- A `samples` element: v3/v4 record `ts`/`kwh`, or legacy `[iso, kwh]` pair
(with the parsed instant of the ISO string). -/
inductive SampleVal where
  | record (ts kwh : ℚ)
  | legacyPair (t : Int) (kwh : ℚ)
  deriving DecidableEq, Repr

/-- An element of a v3/v4 `booked` list: the current shape, or a flat entry
with scalar `dyn_chf`/`base_chf`/`savings_chf` fields. -/
inductive BookedItem where
  | modern (b : BookedSlot)
  | legacyFlat (start : Int) (kwh : ℚ) (status : String) (dynChf baseChf savChf : ℚ)
  deriving DecidableEq, Repr

/-- A legacy `booked_slots` dict payload (the two accepted key spellings per
field, e.g. `dyn_chf`/`dyn`, are collapsed into one value). -/
structure LegacyBookedPayload where
  kwh : ℚ
  dynChf : ℚ
  baseChf : ℚ
  savChf : ℚ
  status : Option String
  deriving DecidableEq, Repr

/-- The booked part of the document: a v3/v4 `booked` list or a legacy
`booked_slots` dict keyed by start ISO. -/
inductive BookedDoc where
  | list (items : List BookedItem)
  | slotsMap (m : List (Int × LegacyBookedPayload))
  deriving DecidableEq, Repr

/-- The persisted document. -/
structure Doc where
  priceSlots : List (Int × PriceVal)
  samples : List SampleVal
  booked : BookedDoc
  lastApiSuccessUtc : Option Int
  deriving DecidableEq, Repr

/-- Models `TariffSaverStore._as_dict` (the payload written by `async_save`). -/
def asDict (st : Store) : Doc :=
  { priceSlots := st.priceSlots.map (fun kv => (kv.1, PriceVal.entry kv.2))
    samples := st.samples.map (fun s => SampleVal.record s.ts s.kwh)
    booked := BookedDoc.list (st.booked.map BookedItem.modern)
    lastApiSuccessUtc := st.lastApiSuccessUtc }

/-- Upgrade one `price_slots` value (the two branches of `async_load`). -/
def loadPriceVal (v : PriceVal) : PriceEntry :=
  match v with
  | PriceVal.legacyNum dyn base =>
    ⟨[("electricity", dyn)], base.map (fun b => [("electricity", b)]), none⟩
  | PriceVal.entry e => e

/-- Upgrade one `samples` element. -/
def loadSampleVal (s : SampleVal) : Sample :=
  match s with
  | SampleVal.record ts kwh => ⟨ts, kwh⟩
  | SampleVal.legacyPair t kwh => ⟨(t : ℚ), kwh⟩

/-- Upgrade one element of a `booked` list. -/
def loadBookedItem (b : BookedItem) : BookedSlot :=
  match b with
  | BookedItem.modern b => b
  | BookedItem.legacyFlat start kwh status dynChf baseChf savChf =>
    ⟨start, kwh, status, [("electricity", dynChf)], [("electricity", baseChf)],
      [("electricity", savChf)]⟩

/-- Upgrade one legacy `booked_slots` payload. -/
def loadLegacyBooked (kv : Int × LegacyBookedPayload) : BookedSlot :=
  let p := kv.2
  let status := p.status.getD (if p.dynChf ≠ 0 ∨ p.baseChf ≠ 0 then "ok" else "unpriced")
  ⟨kv.1, p.kwh, status, [("electricity", p.dynChf)], [("electricity", p.baseChf)],
    [("electricity", p.savChf)]⟩

/-- Stable insertion used to model the `booked.sort(key=start)` of the legacy
`booked_slots` branch of `async_load`. -/
def insertBookedLe (x : BookedSlot) : List BookedSlot → List BookedSlot
  | [] => [x]
  | y :: ys => if y.start ≤ x.start then y :: insertBookedLe x ys else x :: y :: ys

/-- Models `TariffSaverStore.async_load`: rebuild the store from a document, upgrading
legacy shapes in place; `dirty` is set to `True` at the end of the load. -/
def loadStore (d : Doc) : Store :=
  { priceSlots := d.priceSlots.map (fun kv => (kv.1, loadPriceVal kv.2))
    samples := d.samples.map loadSampleVal
    booked :=
      match d.booked with
      | BookedDoc.list items => items.map loadBookedItem
      | BookedDoc.slotsMap m =>
        (m.map loadLegacyBooked).foldl (fun acc x => insertBookedLe x acc) []
    lastApiSuccessUtc := d.lastApiSuccessUtc
    dirty := true }

/-! ### The price helper `EkzTariffApi.sum_chf_per_kwh` (api.py) -/

/-- JSON-ish values of a raw EKZ price record field. -/
inductive Json where
  | jnull
  | jstr (s : String)
  | jnum (q : ℚ)
  | jarr (l : List Json)
  | jobj (fields : List (String × Json))

/-- Models `dict.get` on a JSON object. -/
def jsonGet (fields : List (String × Json)) (k : String) : Option Json :=
  match fields with
  | [] => none
  | (k', v) :: rest => if k' = k then some v else jsonGet rest k

/-- One inner step of `sum_chf_per_kwh`: add an accepted list entry's value. -/
def entryStep (t : ℚ) (e : Json) : ℚ :=
  match e with
  | Json.jobj fields =>
    match jsonGet fields "unit" with
    | some (Json.jstr u) =>
      if u = "CHF_kWh" then
        match jsonGet fields "value" with
        | some (Json.jnum v) => t + v
        | _ => t
      else t
    | _ => t
  | _ => t

/-- One outer-loop iteration of `sum_chf_per_kwh`: a list-valued field runs
the inner entry loop over the accumulated total, other shapes leave it. -/
def fieldStep (total : ℚ) (kv : String × Json) : ℚ :=
  match kv.2 with
  | Json.jarr entries => entries.foldl entryStep total
  | _ => total

/-- Models `EkzTariffApi.sum_chf_per_kwh`: over every field of the record, sum the
values of list entries whose `unit` equals `CHF_kWh`; non-list fields
contribute nothing. -/
def sumChfPerKwh (priceItem : List (String × Json)) : ℚ :=
  priceItem.foldl fieldStep 0

/-- Spec-side contribution of one list-valued field, following §4.1 of the
spec restricted to the unit the code accepts: the sum of the entries whose
`unit` is `CHF_kWh` and whose `value` is numeric. -/
def chfEntrySum (entries : List Json) : ℚ :=
  (entries.filterMap
    (fun e =>
      match e with
      | Json.jobj fields =>
        match jsonGet fields "unit", jsonGet fields "value" with
        | some (Json.jstr u), some (Json.jnum v) => if u = "CHF_kWh" then some v else none
        | _, _ => none
      | _ => none)).sum

/-- The value a single list entry adds in `sum_chf_per_kwh` (0 when skipped). -/
def entryContrib (e : Json) : ℚ :=
  match e with
  | Json.jobj fields =>
    (match jsonGet fields "unit" with
     | some (Json.jstr u) =>
       if u = "CHF_kWh" then
         match jsonGet fields "value" with
         | some (Json.jnum v) => v
         | _ => 0
       else 0
     | _ => 0)
  | _ => 0

/-- The value a whole field adds in `sum_chf_per_kwh` (0 for non-lists). -/
def fieldContrib (v : Json) : ℚ :=
  match v with
  | Json.jarr entries => chfEntrySum entries
  | _ => 0

/-! ### Reachability and ordering invariants -/

/-- Predicate `chain900B c l`: the starts `l` are exactly `c, c + 900, c + 1800, …`. -/
def chain900B (c : Int) : List Int → Bool
  | [] => true
  | x :: xs => x = c && chain900B (c + 900) xs

/-- The booked-list invariant of claim C10: strictly increasing, 15-minute
aligned starts. -/
def BookedInv (l : List BookedSlot) : Prop :=
  l.Pairwise (fun a b => a.start < b.start) ∧ ∀ b ∈ l, b.start % 900 = 0

/-- Store states reachable from the empty store by the sample / booking / trim
operations (plus the harmless price upsert, which never touches `booked`). -/
inductive Reachable : Store → Prop where
  | empty : Reachable emptyStore
  | addSample (st : Store) (ts : Int) (kwh : ℚ) (wall : Int) :
      Reachable st → Reachable (addSample st ts kwh wall).1
  | finalize (st : Store) (now wall : Int) :
      Reachable st → Reachable (finalizeDueSlots st now wall).1
  | setPrice (st : Store) (t : Int) (dyn : SMap) (base : Option SMap) (api : Option ℚ) :
      Reachable st → Reachable (setPriceSlot st t dyn base api)
  | trimPrices (st : Store) (wall keepDays : Int) :
      Reachable st → Reachable (trimPriceSlots st wall keepDays)
  | trimSamples (st : Store) (wall keepDays : Int) :
      Reachable st → Reachable { st with samples := trimSamplesList st.samples wall keepDays }
  | trimBooked (st : Store) (wall keepDays : Int) :
      Reachable st → Reachable { st with booked := trimBookedList st.booked wall keepDays }

/-! ### Concrete inputs used by witnesses and counterexamples -/

/-- The instant 2024-01-01T00:00:00Z as an epoch second (a 15-minute boundary). -/
def T0 : Int := 1704067200

/-- The store of spec scenario A: two priced slots and three samples. -/
def scenarioAStore : Store :=
  { priceSlots := [(T0, ⟨[("electricity", 1/10)], none, none⟩),
                   (T0 + 900, ⟨[("electricity", 1/5)], none, none⟩)]
    samples := [⟨(T0 : ℚ), 10⟩, ⟨(T0 : ℚ) + 905, 21/2⟩, ⟨(T0 : ℚ) + 1802, 23/2⟩]
    booked := []
    lastApiSuccessUtc := none
    dirty := false }

/-- Two samples, no prices: every completed slot books `unpriced`. -/
def unpricedStore : Store :=
  { priceSlots := []
    samples := [⟨0, 5⟩, ⟨1000, 6⟩]
    booked := []
    lastApiSuccessUtc := none
    dirty := false }

/-- A meter reset: the cumulative reading drops from 10.5 to 9 across the
boundary of the slot starting at 900. -/
def meterResetStore : Store :=
  { priceSlots := []
    samples := [⟨0, 21/2⟩, ⟨1000, 9⟩]
    booked := []
    lastApiSuccessUtc := none
    dirty := false }

/-- A booked list whose last element is not its maximum start (starts 1800
then 0), as a store state for the restart counterexample. -/
def unsortedBookedStore : Store :=
  { priceSlots := []
    samples := [⟨0, 10⟩, ⟨5000, 11⟩]
    booked := [⟨1800, 0, "ok", [], [], []⟩, ⟨0, 0, "ok", [], [], []⟩]
    lastApiSuccessUtc := none
    dirty := false }

/-- A priced slot whose single dyn component is negative, so its active total
is non-positive while the dyn map is non-empty. -/
def negPriceStore : Store :=
  { priceSlots := [(0, ⟨[("electricity", -(1/10))], none, none⟩)]
    samples := [⟨0, 5⟩, ⟨500, 6⟩]
    booked := []
    lastApiSuccessUtc := none
    dirty := false }

/-- Samples far in the past relative to a drifted wall clock. -/
def oldSamplesStore : Store :=
  { priceSlots := []
    samples := [⟨0, 10⟩, ⟨1000, 11⟩]
    booked := []
    lastApiSuccessUtc := none
    dirty := false }

/-- Two booked `ok` slots inside the local day [0, 86400) (offset 0). -/
def dayStore : Store :=
  { priceSlots := []
    samples := []
    booked := [⟨0, 1, "ok", [("electricity", 2)], [], []⟩,
               ⟨900, 1, "ok", [("electricity", 3), ("grid", 4)], [], []⟩]
    lastApiSuccessUtc := none
    dirty := false }

/-! ### Helper lemmas -/

/-- The 15-minute floor is a lower bound within 900 seconds. -/
theorem slotStartUtc_bounds (t : Int) : slotStartUtc t ≤ t ∧ t < slotStartUtc t + 900 := by
  unfold slotStartUtc
  rw [Int.fdiv_eq_ediv t (by norm_num)]
  omega

/-- The 15-minute floor lies on the 900 s grid. -/
theorem slotStartUtc_mod (t : Int) : slotStartUtc t % 900 = 0 := by
  unfold slotStartUtc
  exact Int.mul_emod_right 900 (t.fdiv 900)

/-- Every branch of the booking body records the slot start it was given. -/
theorem bookRecord_start (ps : List (Int × PriceEntry)) (pts : List Sample) (c : Int) :
    (bookRecord ps pts c).start = c := by
  unfold bookRecord
  cases kwhAt pts ((c : ℚ)) with
  | none => rfl
  | some ks =>
    cases kwhAt pts (((c + 900 : Int) : ℚ)) with
    | none => rfl
    | some ke =>
      dsimp only
      split
      · rfl
      · cases (getPriceComponents ps c).1 with
        | none => rfl
        | some dynPrices =>
          dsimp only
          split <;> rfl

/-- Elements of the booking loop are `bookRecord`s of their own start, booked
only for cursors inside the window. -/
theorem bookLoopF_mem (ps : List (Int × PriceEntry)) (pts : List Sample)
    (cutoff e : Int) :
    ∀ (n : Nat) (c : Int) (b : BookedSlot), b ∈ bookLoopF ps pts cutoff e n c →
      b = bookRecord ps pts b.start ∧ c ≤ b.start ∧ b.start < e ∧ b.start + 900 ≤ cutoff := by
  intro n
  induction n with
  | zero => intro c b h; simp [bookLoopF] at h
  | succ n ih =>
    intro c b h
    rw [bookLoopF] at h
    split at h
    · next hlt =>
      split at h
      · simp at h
      · next hcut =>
        rcases List.mem_cons.mp h with hb | hb
        · refine ⟨?_, ?_, ?_, ?_⟩
          · rw [hb, bookRecord_start]
          · rw [hb, bookRecord_start]
          · rw [hb, bookRecord_start]; exact hlt
          · rw [hb, bookRecord_start]; omega
        · obtain ⟨h1, h2, h3, h4⟩ := ih (c + 900) b hb
          exact ⟨h1, by omega, h3, h4⟩
    · simp at h

/-- The starts produced by the booking loop are the consecutive 15-minute
grid points from the initial cursor. -/
theorem bookLoopF_chain (ps : List (Int × PriceEntry)) (pts : List Sample)
    (cutoff e : Int) :
    ∀ (n : Nat) (c : Int),
      chain900B c ((bookLoopF ps pts cutoff e n c).map (fun b => b.start)) = true := by
  intro n
  induction n with
  | zero => intro c; simp [bookLoopF, chain900B]
  | succ n ih =>
    intro c
    rw [bookLoopF]
    split
    · split
      · simp [chain900B]
      · simp only [List.map_cons, chain900B, bookRecord_start, Bool.and_eq_true, decide_eq_true_eq]
        exact ⟨trivial, ih (c + 900)⟩
    · simp [chain900B]

/-- If the loop's entry condition fails, the loop books nothing (any fuel). -/
theorem bookLoopF_stop (ps : List (Int × PriceEntry)) (pts : List Sample)
    (cutoff e : Int) (n : Nat) (c : Int)
    (h : ¬(c < e ∧ c + 900 ≤ cutoff)) :
    bookLoopF ps pts cutoff e n c = [] := by
  cases n with
  | zero => rfl
  | succ n =>
    rw [bookLoopF]
    split
    · next hlt =>
      split
      · rfl
      · next hcut => exact absurd ⟨hlt, by omega⟩ h
    · rfl

/-- With sufficient fuel the loop runs to its real exit: after the last booked
slot (or immediately, if nothing was booked) the entry condition fails. -/
theorem bookLoopF_post (ps : List (Int × PriceEntry)) (pts : List Sample)
    (cutoff e : Int) :
    ∀ (n : Nat) (c : Int), e - c ≤ 900 * n →
      (bookLoopF ps pts cutoff e (n + 1) c = [] → ¬(c < e ∧ c + 900 ≤ cutoff)) ∧
      (∀ x, (bookLoopF ps pts cutoff e (n + 1) c).getLast? = some x →
        ¬(x.start + 900 < e ∧ x.start + 1800 ≤ cutoff)) := by
  intro n
  induction n with
  | zero =>
    intro c hc
    constructor
    · rintro - ⟨h1, -⟩
      omega
    · intro x hx
      rw [bookLoopF] at hx
      split at hx
      · next hlt => exact absurd hlt (by omega)
      · simp at hx
  | succ n ih =>
    intro c hc
    constructor
    · intro hnil
      rw [bookLoopF] at hnil
      split at hnil
      · next hlt =>
        split at hnil
        · next hcut =>
          rintro ⟨-, h2⟩
          omega
        · simp at hnil
      · next hlt => rintro ⟨h1, -⟩; exact hlt h1
    · intro x hx
      rw [bookLoopF] at hx
      split at hx
      · next hlt =>
        split at hx
        · simp at hx
        · next hcut =>
          have hc' : e - (c + 900) ≤ 900 * (n : Int) := by
            push_cast at hc ⊢
            omega
          cases hrec : bookLoopF ps pts cutoff e (n + 1) (c + 900) with
          | nil =>
            rw [hrec, List.getLast?_singleton] at hx
            have hstop := (ih (c + 900) hc').1 hrec
            have hx' : x = bookRecord ps pts c := by
              exact Option.some.inj hx |>.symm
            rintro ⟨h1, h2⟩
            rw [hx', bookRecord_start] at h1 h2
            exact hstop ⟨h1, by omega⟩
          | cons y ys =>
            rw [hrec, List.getLast?_cons_cons] at hx
            have h2 := (ih (c + 900) hc').2 x
            rw [hrec] at h2
            exact h2 hx
      · simp at hx

/-- What a 900-chain gives: lower bound, grid alignment, strict ordering. -/
theorem chain900B_spec :
    ∀ (l : List Int) (c : Int), chain900B c l = true →
      (∀ x ∈ l, c ≤ x ∧ x % 900 = c % 900) ∧ l.Pairwise (· < ·) := by
  intro l
  induction l with
  | nil => intro c _; exact ⟨by simp, List.Pairwise.nil⟩
  | cons x xs ih =>
    intro c h
    rw [chain900B, Bool.and_eq_true, decide_eq_true_eq] at h
    obtain ⟨hx, hch⟩ := h
    obtain ⟨hall, hpw⟩ := ih (c + 900) hch
    subst hx
    constructor
    · intro y hy
      rcases List.mem_cons.mp hy with rfl | hy
      · exact ⟨le_refl _, rfl⟩
      · obtain ⟨h1, h2⟩ := hall y hy
        refine ⟨by omega, ?_⟩
        rw [h2]
        omega
    · refine List.Pairwise.cons ?_ hpw
      intro y hy
      have := (hall y hy).1
      omega

/-- In a strictly increasing booked list the last element bounds every start. -/
theorem pairwise_le_getLast :
    ∀ (l : List BookedSlot) (b m : BookedSlot),
      l.Pairwise (fun a b => a.start < b.start) → b ∈ l → l.getLast? = some m →
      b.start ≤ m.start := by
  intro l
  induction l with
  | nil => intro b m _ hb _; simp at hb
  | cons x xs ih =>
    intro b m hpw hb hlast
    rcases List.pairwise_cons.mp hpw with ⟨hx, hxs⟩
    cases xs with
    | nil =>
      simp at hb hlast
      rw [hb, hlast]
    | cons y ys =>
      rw [List.getLast?_cons_cons] at hlast
      have hmem : m ∈ (y :: ys).getLast? := Option.mem_def.mpr hlast
      obtain ⟨hne, hmeq⟩ := List.mem_getLast?_eq_getLast hmem
      have hm : m ∈ y :: ys := hmeq ▸ List.getLast_mem hne
      rcases List.mem_cons.mp hb with rfl | hb
      · exact le_of_lt (hx m hm)
      · exact ih b m hxs hb hlast

/-- Membership in the freshly booked slots of one `finalize_due_slots` call. -/
theorem finalizeCore_mem (st : Store) (now : Int) (b : BookedSlot)
    (h : b ∈ finalizeCore st now) :
    b = bookRecord st.priceSlots (sortByTs st.samples) b.start ∧
    initialCursor st ≤ b.start ∧ b.start < slotStartUtc (now - 60) ∧
    b.start + 900 ≤ now - 60 := by
  unfold finalizeCore at h
  split at h
  · simp at h
  · split at h
    · simp at h
    · exact bookLoopF_mem _ _ _ _ _ _ b h

/-- The newly booked starts of one call are the consecutive grid points from
the initial cursor. -/
theorem finalizeCore_chain (st : Store) (now : Int) :
    chain900B (initialCursor st) ((finalizeCore st now).map (fun b => b.start)) = true := by
  unfold finalizeCore
  split
  · rfl
  · split
    · rfl
    · exact bookLoopF_chain _ _ _ _ _ _

/-- The chosen fuel dominates the loop's iteration count. -/
theorem fuelFor_spec (e c : Int) :
    fuelFor e c = ((e - c).toNat / 900 + 1) + 1 ∧
    e - c ≤ 900 * (((e - c).toNat / 900 + 1 : ℕ) : Int) := by
  constructor
  · rfl
  · omega

/-- After a call that booked something, the loop's entry condition fails right
after the last newly booked slot. -/
theorem finalizeCore_getLast (st : Store) (now : Int) (x : BookedSlot)
    (h : (finalizeCore st now).getLast? = some x) :
    ¬(x.start + 900 < slotStartUtc (now - 60) ∧ x.start + 1800 ≤ now - 60) := by
  unfold finalizeCore at h
  split at h
  · simp at h
  · split at h
    · simp at h
    · dsimp only at h
      obtain ⟨hfu, hbound⟩ := fuelFor_spec (slotStartUtc (now - 60)) (initialCursor st)
      rw [hfu] at h
      exact (bookLoopF_post _ _ _ _ _ _ hbound).2 x h

/-- If the loop's entry condition already fails at the recomputed cursor, the
call books nothing. -/
theorem finalizeCore_of_stop (st : Store) (now : Int)
    (h : ¬(initialCursor st < slotStartUtc (now - 60) ∧
          initialCursor st + 900 ≤ now - 60)) :
    finalizeCore st now = [] := by
  unfold finalizeCore
  split
  · rfl
  · split
    · rfl
    · exact bookLoopF_stop _ _ _ _ _ _ h

/-- Save-then-load is the identity on the store (up to the `dirty` flag, which
`async_load` sets). -/
theorem loadStore_asDict (st : Store) : loadStore (asDict st) = { st with dirty := true } := by
  cases st with
  | mk ps ss bs la d =>
    simp only [asDict, loadStore, List.map_map]
    congr 1
    · exact List.map_id ps
    · exact List.map_id ss
    · exact List.map_id bs

/-- Adding into a dict changes exactly the looked-up key. -/
theorem dictGetD_dictAdd :
    ∀ (m : SMap) (k c : String) (v : ℚ),
      dictGetD (dictAdd m k v) c 0 = dictGetD m c 0 + (if k = c then v else 0) := by
  intro m
  induction m with
  | nil =>
    intro k c v
    by_cases h : k = c <;> simp [dictAdd, dictGetD, dictGet, h]
  | cons kv rest ih =>
    intro k c v
    obtain ⟨k', v'⟩ := kv
    by_cases h1 : k' = k
    · subst h1
      by_cases h2 : k' = c
      · subst h2
        simp [dictAdd, dictGetD, dictGet]
      · simp [dictAdd, dictGetD, dictGet, h2]
    · by_cases h2 : k' = c
      · subst h2
        have hkc : ¬k = k' := fun h => h1 h.symm
        simp [dictAdd, dictGetD, dictGet, h1, hkc]
      · simp only [dictAdd, if_neg h1, dictGetD, dictGet, if_neg h2]
        exact ih k c v

/-- Folding a whole map into a bucket adds its per-key total. -/
theorem dictGetD_addMapInto :
    ∀ (m acc : SMap) (c : String),
      dictGetD (addMapInto acc m) c 0 = dictGetD acc c 0 + sumKey m c := by
  intro m
  induction m with
  | nil => intro acc c; simp [addMapInto, sumKey]
  | cons kv rest ih =>
    intro acc c
    obtain ⟨k, v⟩ := kv
    have step : addMapInto acc ((k, v) :: rest) = addMapInto (dictAdd acc k v) rest := rfl
    rw [step, ih, dictGetD_dictAdd]
    by_cases h : k = c
    · have hs : sumKey ((k, v) :: rest) c = v + sumKey rest c := by
        simp [sumKey, List.filter_cons, h]
      rw [hs, if_pos h]
      ring
    · have hs : sumKey ((k, v) :: rest) c = sumKey rest c := by
        simp [sumKey, List.filter_cons, h]
      rw [hs, if_neg h]
      ring

/-- The dyn bucket of the `_sum_between_local` fold, pointwise: the initial
value plus the per-component total of the in-window slots. -/
theorem sumStep_fold_dyn (a b : Int) (c : String) :
    ∀ (l : List BookedSlot) (out : Breakdown),
      dictGetD (l.foldl (sumStep a b) out).dyn c 0 =
        dictGetD out.dyn c 0 +
          ((l.filter (fun bk => decide (a ≤ bk.start ∧ bk.start < b))).map
            (fun bk => sumKey bk.dyn c)).sum := by
  intro l
  induction l with
  | nil => intro out; simp
  | cons bk rest ih =>
    intro out
    rw [List.foldl_cons, List.filter_cons]
    by_cases h : a ≤ bk.start ∧ bk.start < b
    · rw [if_pos (by exact decide_eq_true h)]
      have hstep : sumStep a b out bk =
          ⟨addMapInto out.dyn bk.dyn, addMapInto out.base bk.base,
            addMapInto out.sav bk.sav⟩ := by
        simp [sumStep, h]
      rw [hstep, ih]
      simp only [List.map_cons, List.sum_cons]
      rw [dictGetD_addMapInto]
      ring
    · rw [if_neg (by simpa using h)]
      have hstep : sumStep a b out bk = out := by
        simp [sumStep, h]
      rw [hstep, ih]

/-- One entry step of `sum_chf_per_kwh` adds the entry's contribution. -/
theorem entryStep_eq (t : ℚ) (e : Json) : entryStep t e = t + entryContrib e := by
  cases e with
  | jobj fields =>
    unfold entryStep entryContrib
    cases hu : jsonGet fields "unit" with
    | none => simp [hu]
    | some u =>
      cases u with
      | jstr s =>
        by_cases h : s = "CHF_kWh"
        · cases hv : jsonGet fields "value" with
          | none => simp [hu, hv, h]
          | some v => cases v <;> simp [hu, hv, h]
        · simp [hu, h]
      | jnull => simp [hu]
      | jnum q => simp [hu]
      | jarr l => simp [hu]
      | jobj f => simp [hu]
  | jnull => simp [entryStep, entryContrib]
  | jstr s => simp [entryStep, entryContrib]
  | jnum q => simp [entryStep, entryContrib]
  | jarr l => simp [entryStep, entryContrib]

/-- The accepted-entry total of one list field splits off its head. -/
theorem chfEntrySum_cons (e : Json) (es : List Json) :
    chfEntrySum (e :: es) = entryContrib e + chfEntrySum es := by
  unfold chfEntrySum entryContrib
  rw [List.filterMap_cons]
  cases e with
  | jobj fields =>
    cases hu : jsonGet fields "unit" with
    | none => simp [hu]
    | some u =>
      cases u with
      | jstr s =>
        by_cases h : s = "CHF_kWh"
        · cases hv : jsonGet fields "value" with
          | none => simp [hu, hv, h]
          | some v => cases v <;> simp [hu, hv, h]
        · cases hv : jsonGet fields "value" with
          | none => simp [hu, hv, h]
          | some v => cases v <;> simp [hu, hv, h]
      | jnull => simp [hu]
      | jnum q => simp [hu]
      | jarr l => simp [hu]
      | jobj f => simp [hu]
  | jnull => simp
  | jstr s => simp
  | jnum q => simp
  | jarr l => simp

/-- The inner entry loop computes the accepted-entry total. -/
theorem foldl_entryStep (es : List Json) : ∀ t : ℚ, es.foldl entryStep t = t + chfEntrySum es := by
  induction es with
  | nil => intro t; simp [chfEntrySum]
  | cons e rest ih =>
    intro t
    rw [List.foldl_cons, ih, entryStep_eq, chfEntrySum_cons]
    ring

/-- One field step of `sum_chf_per_kwh` adds the field's contribution. -/
theorem fieldStep_eq (t : ℚ) (kv : String × Json) :
    fieldStep t kv = t + fieldContrib kv.2 := by
  obtain ⟨k, v⟩ := kv
  cases v with
  | jarr entries => exact foldl_entryStep entries t
  | jnull => simp [fieldStep, fieldContrib]
  | jstr s => simp [fieldStep, fieldContrib]
  | jnum q => simp [fieldStep, fieldContrib]
  | jobj f => simp [fieldStep, fieldContrib]

/-- The outer field loop is additive in its accumulator. -/
theorem foldl_fieldStep (l : List (String × Json)) :
    ∀ t : ℚ, l.foldl fieldStep t = t + sumChfPerKwh l := by
  induction l with
  | nil => intro t; simp [sumChfPerKwh]
  | cons kv rest ih =>
    intro t
    rw [List.foldl_cons, ih]
    have h2 : sumChfPerKwh (kv :: rest) = fieldStep 0 kv + sumChfPerKwh rest := by
      have hstep : sumChfPerKwh (kv :: rest) = rest.foldl fieldStep (fieldStep 0 kv) := rfl
      rw [hstep, ih]
    rw [h2, fieldStep_eq, fieldStep_eq]
    ring

/-- Writing a key into the price-slot dict makes it found at that key. -/
theorem priceFind_priceSet :
    ∀ (ps : List (Int × PriceEntry)) (k : Int) (v : PriceEntry),
      priceFind (priceSet ps k v) k = some v := by
  intro ps
  induction ps with
  | nil => intro k v; simp [priceSet, priceFind]
  | cons kv rest ih =>
    intro k v
    obtain ⟨k', v'⟩ := kv
    by_cases h : k' = k
    · simp [priceSet, priceFind, h]
    · simp only [priceSet, if_neg h, priceFind]
      exact ih k v

/-! ### The claims -/

/-- Claim C4 (confirmed): round-trip persistence — serializing a store with
`_as_dict` (as `async_save` does) and loading the result with `async_load`
reproduces the price-slot, sample and booked collections value for value. -/
theorem C4_round_trip (st : Store) :
    (loadStore (asDict st)).priceSlots = st.priceSlots ∧
    (loadStore (asDict st)).samples = st.samples ∧
    (loadStore (asDict st)).booked = st.booked := by
  rw [loadStore_asDict]
  exact ⟨rfl, rfl, rfl⟩

/-- Counterexample to claim C7: `set_price_slot` with the unaligned instant
420 s (00:07:00) stores the key 420 itself, not its 15-minute floor 0; the
stored key is not aligned and a lookup at the floored start finds nothing. -/
theorem C7_cex :
    (setPriceSlot emptyStore 420 [("electricity", 1)] none none).priceSlots.map
        (fun kv => kv.1) = [420] ∧
    ¬((420 : Int) % 900 = 0) ∧
    getPriceComponents
        (setPriceSlot emptyStore 420 [("electricity", 1)] none none).priceSlots
        (slotStartUtc 420) =
      (none, none, none) := by
  refine ⟨rfl, by decide, ?_⟩
  have h : slotStartUtc 420 = 0 := by decide
  rw [h]
  rfl

/-- Claim C7 (amended): `set_price_slot` never rejects and stores the entry
under the exact (UTC-normalized) `start_utc` it was given, without flooring,
so the stored key is 15-minute aligned only when the input is; a subsequent
`get_price_components` with the same `start_utc` finds the entry (with the
source's empty-base normalization). -/
theorem C7_upsert (st : Store) (t : Int) (dyn : SMap) (base : Option SMap) (api : Option ℚ) :
    priceFind (setPriceSlot st t dyn base api).priceSlots t =
      some ⟨dyn, normBase base, api⟩ ∧
    getPriceComponents (setPriceSlot st t dyn base api).priceSlots t =
      (some dyn, normBase base, api) := by
  have h := priceFind_priceSet st.priceSlots t ⟨dyn, normBase base, api⟩
  refine ⟨h, ?_⟩
  unfold getPriceComponents
  unfold setPriceSlot
  rw [h]

/-- Counterexample to claim C8: a bare-number field contributes nothing in
`sum_chf_per_kwh` — the record whose single field is the bare number 0.5 sums
to 0, not 0.5. -/
theorem C8_cex :
    sumChfPerKwh [("electricity", Json.jnum (1/2))] = 0 ∧ (0 : ℚ) ≠ 1/2 := by
  exact ⟨rfl, by norm_num⟩

/-- Claim C8 (amended): in `sum_chf_per_kwh` a list-valued field contributes
the sum of its entries whose `unit` is exactly `CHF_kWh` (`CHF/kWh` and other
units excluded), while a bare number and a single unit/value object contribute
nothing; in particular the field
`electricity = [(CHF_m, 3.0), (CHF_kWh, 0.11933)]` contributes exactly
0.11933. -/
theorem C8_normalizer :
    (∀ (rest : List (String × Json)) (f : String) (l : List Json),
        sumChfPerKwh ((f, Json.jarr l) :: rest) = chfEntrySum l + sumChfPerKwh rest) ∧
    (∀ (rest : List (String × Json)) (f : String) (q : ℚ),
        sumChfPerKwh ((f, Json.jnum q) :: rest) = sumChfPerKwh rest) ∧
    (∀ (rest : List (String × Json)) (f : String) (fo : List (String × Json)),
        sumChfPerKwh ((f, Json.jobj fo) :: rest) = sumChfPerKwh rest) ∧
    sumChfPerKwh [("electricity",
        Json.jarr [Json.jobj [("unit", Json.jstr "CHF_m"), ("value", Json.jnum 3)],
                   Json.jobj [("unit", Json.jstr "CHF_kWh"),
                              ("value", Json.jnum (11933/100000))]])] =
      11933/100000 := by
  have hcons : ∀ (kv : String × Json) (rest : List (String × Json)),
      sumChfPerKwh (kv :: rest) = fieldContrib kv.2 + sumChfPerKwh rest := by
    intro kv rest
    have hstep : sumChfPerKwh (kv :: rest) = rest.foldl fieldStep (fieldStep 0 kv) := rfl
    rw [hstep, foldl_fieldStep, fieldStep_eq]
    ring
  refine ⟨?_, ?_, ?_, ?_⟩
  · intro rest f l
    rw [hcons]
    rfl
  · intro rest f q
    rw [hcons]
    simp [fieldContrib]
  · intro rest f fo
    rw [hcons]
    simp [fieldContrib]
  · rw [hcons]
    dsimp only [fieldContrib]
    rw [chfEntrySum_cons, chfEntrySum_cons]
    simp [chfEntrySum, entryContrib, jsonGet, sumChfPerKwh]

/-- Claim C6 (confirmed): during `finalize_due_slots`, a slot whose boundary
samples both resolve but whose consumption delta is negative (meter reset) is
booked with status `invalid`, kwh 0 and empty cost maps — never with a
negative kwh or negative cost. -/
theorem C6_meter_reset (st : Store) (now : Int) (b : BookedSlot) (ks ke : ℚ)
    (hb : b ∈ finalizeCore st now)
    (hks : kwhAt (sortByTs st.samples) ((b.start : ℚ)) = some ks)
    (hke : kwhAt (sortByTs st.samples) (((b.start + 900 : Int) : ℚ)) = some ke)
    (hneg : ke - ks < 0) :
    b = ⟨b.start, 0, "invalid", [], [], []⟩ := by
  obtain ⟨hrec, -, -, -⟩ := finalizeCore_mem st now b hb
  have hbr : bookRecord st.priceSlots (sortByTs st.samples) b.start =
      ⟨b.start, 0, "invalid", [], [], []⟩ := by
    unfold bookRecord
    rw [hks, hke]
    dsimp only
    rw [if_pos hneg]
  exact hrec.trans hbr

/-- Witness for C6: in the meter-reset store the slot starting at 900 has
boundary readings 10.5 then 9 and is booked exactly as
`invalid` with kwh 0 and empty costs. -/
theorem C6_meter_reset_witness :
    (⟨900, 0, "invalid", [], [], []⟩ : BookedSlot) ∈ finalizeCore meterResetStore 1860 ∧
    ((9 : ℚ) - 21/2 < 0) ∧
    (⟨900, 0, "invalid", [], [], []⟩ : BookedSlot) =
      ⟨(⟨900, 0, "invalid", [], [], []⟩ : BookedSlot).start, 0, "invalid", [], [], []⟩ := by
  have hb : (⟨900, 0, "invalid", [], [], []⟩ : BookedSlot) ∈ finalizeCore meterResetStore 1860 := by
    norm_num [finalizeCore, meterResetStore, sortByTs, insertAfterLe, kwhAt, bookLoopF,
      bookRecord, initialCursor, slotStartOfRat, slotStartUtc, fuelFor, getPriceComponents,
      priceFind, Int.fdiv]
  refine ⟨hb, by norm_num, ?_⟩
  exact C6_meter_reset meterResetStore 1860 _ (21/2) 9 hb
    (by norm_num [meterResetStore, sortByTs, insertAfterLe, kwhAt])
    (by norm_num [meterResetStore, sortByTs, insertAfterLe, kwhAt])
    (by norm_num)

/-- Counterexample to claim C5: a slot whose price lookup succeeds with the
single negative dyn component −0.1 (active total −0.1, non-positive) is booked
with status `ok` and a negative cost, not `unpriced` with empty costs. -/
theorem C5_cex :
    getPriceComponents negPriceStore.priceSlots 0 =
      (some [("electricity", -(1/10))], none, none) ∧
    (-(1/10) : ℚ) ≤ 0 ∧
    finalizeCore negPriceStore 1860 =
      [⟨0, 1, "ok", [("electricity", -(1/10))], [], []⟩,
       ⟨900, 0, "unpriced", [], [], []⟩] := by
  refine ⟨rfl, by norm_num, ?_⟩
  norm_num [finalizeCore, negPriceStore, sortByTs, insertAfterLe, kwhAt, bookLoopF,
    bookRecord, initialCursor, slotStartOfRat, slotStartUtc, fuelFor, getPriceComponents,
    priceFind, dictSet, Int.fdiv]

/-- Claim C5 (amended): during `finalize_due_slots`, a slot whose boundary
samples both resolve with a non-negative delta and whose price lookup yields
no dyn components (entry absent or dyn map empty) is booked with status
`unpriced`, kwh equal to the real delta, and empty cost maps. -/
theorem C5_unpriced (st : Store) (now : Int) (b : BookedSlot) (ks ke : ℚ)
    (hb : b ∈ finalizeCore st now)
    (hks : kwhAt (sortByTs st.samples) ((b.start : ℚ)) = some ks)
    (hke : kwhAt (sortByTs st.samples) (((b.start + 900 : Int) : ℚ)) = some ke)
    (hd : 0 ≤ ke - ks)
    (hp : (getPriceComponents st.priceSlots b.start).1 = none ∨
          (getPriceComponents st.priceSlots b.start).1 = some []) :
    b = ⟨b.start, ke - ks, "unpriced", [], [], []⟩ := by
  obtain ⟨hrec, -, -, -⟩ := finalizeCore_mem st now b hb
  have hbr : bookRecord st.priceSlots (sortByTs st.samples) b.start =
      ⟨b.start, ke - ks, "unpriced", [], [], []⟩ := by
    unfold bookRecord
    rw [hks, hke]
    dsimp only
    rw [if_neg (not_lt.mpr hd)]
    rcases hp with hp | hp
    · rw [hp]
    · rw [hp]
      dsimp only
      rw [if_pos rfl]
  exact hrec.trans hbr

/-- Witness for C5: in the price-less store the slot starting at 0 has equal
boundary readings 5 and is booked `unpriced` with kwh 5 − 5 and empty costs. -/
theorem C5_unpriced_witness :
    (⟨0, 0, "unpriced", [], [], []⟩ : BookedSlot) ∈ finalizeCore unpricedStore 1860 ∧
    (getPriceComponents unpricedStore.priceSlots 0).1 = none ∧
    (⟨0, 0, "unpriced", [], [], []⟩ : BookedSlot) =
      ⟨(⟨0, 0, "unpriced", [], [], []⟩ : BookedSlot).start, 5 - 5, "unpriced", [], [], []⟩ := by
  have hb : (⟨0, 0, "unpriced", [], [], []⟩ : BookedSlot) ∈ finalizeCore unpricedStore 1860 := by
    norm_num [finalizeCore, unpricedStore, sortByTs, insertAfterLe, kwhAt, bookLoopF,
      bookRecord, initialCursor, slotStartOfRat, slotStartUtc, fuelFor, getPriceComponents,
      priceFind, Int.fdiv]
  refine ⟨hb, rfl, ?_⟩
  exact C5_unpriced unpricedStore 1860 _ 5 5 hb
    (by norm_num [unpricedStore, sortByTs, insertAfterLe, kwhAt])
    (by norm_num [unpricedStore, sortByTs, insertAfterLe, kwhAt])
    (by norm_num)
    (Or.inl rfl)

/-- Claim C9 (confirmed): when every booked slot inside the current local day
window has status `ok`, the `dyn` bucket of the day breakdown is, component
by component, the sum of those slots' dyn cost maps. -/
theorem C9_component_sum (st : Store) (now off : Int) (comp : String)
    (_hok : ∀ b ∈ st.booked,
        (periodBoundsToday now off).1 ≤ b.start ∧ b.start < (periodBoundsToday now off).2 →
        b.status = "ok") :
    dictGetD (computeTodayBreakdown st now off).dyn comp 0 =
      ((st.booked.filter (fun b =>
          decide ((periodBoundsToday now off).1 ≤ b.start ∧
            b.start < (periodBoundsToday now off).2))).map
        (fun b => sumKey b.dyn comp)).sum := by
  unfold computeTodayBreakdown sumBetweenLocal
  rw [sumStep_fold_dyn]
  simp [dictGetD, dictGet]

/-- Witness for C9: the two `ok` slots of `dayStore` lie in the day window of
`now = 1000` at offset 0, and the breakdown's electricity total equals the
merged per-slot sum. -/
theorem C9_component_sum_witness :
    (∀ b ∈ dayStore.booked,
        (periodBoundsToday 1000 0).1 ≤ b.start ∧ b.start < (periodBoundsToday 1000 0).2 →
        b.status = "ok") ∧
    dictGetD (computeTodayBreakdown dayStore 1000 0).dyn "electricity" 0 =
      ((dayStore.booked.filter (fun b =>
          decide ((periodBoundsToday 1000 0).1 ≤ b.start ∧
            b.start < (periodBoundsToday 1000 0).2))).map
        (fun b => sumKey b.dyn "electricity")).sum := by
  have hok : ∀ b ∈ dayStore.booked,
      (periodBoundsToday 1000 0).1 ≤ b.start ∧ b.start < (periodBoundsToday 1000 0).2 →
      b.status = "ok" := by
    intro b hb _
    simp [dayStore] at hb
    rcases hb with rfl | rfl <;> rfl
  exact ⟨hok, C9_component_sum dayStore 1000 0 "electricity" hok⟩

/-- Counterexample to claim C2: in scenario A the two booked slots carry
kwh 0 and 0.5, not 0.5 and 1 — `kwh_at` returns the last sample at or before
each boundary, so the samples arriving at 00:15:05 and 00:30:02 do not count
towards the slots ending at 00:15:00 and 00:30:00. -/
theorem C2_cex :
    (finalizeCore scenarioAStore (T0 + 1860)).map (fun b => b.kwh) = [0, 1/2] ∧
    ([0, 1/2] : List ℚ) ≠ [1/2, 1] := by
  constructor
  · norm_num [finalizeCore, scenarioAStore, T0, sortByTs, insertAfterLe, kwhAt, bookLoopF,
      bookRecord, initialCursor, slotStartOfRat, slotStartUtc, fuelFor, getPriceComponents,
      priceFind, dictSet, Int.fdiv]
  · norm_num

/-- Claim C2 (amended): on the scenario-A store, `finalize_due_slots` at
2024-01-01T00:31:00Z books exactly two slots, both `ok`: slot 00:00 with
kwh 0 and dyn cost electricity 0 CHF, and slot 00:15 with kwh 0.5 and dyn
cost electricity 0.10 CHF. -/
theorem C2_scenarioA :
    (finalizeDueSlots scenarioAStore (T0 + 1860) (T0 + 1860)).2 = 2 ∧
    (finalizeDueSlots scenarioAStore (T0 + 1860) (T0 + 1860)).1.booked =
      [⟨T0, 0, "ok", [("electricity", 0)], [], []⟩,
       ⟨T0 + 900, 1/2, "ok", [("electricity", 1/10)], [], []⟩] := by
  constructor <;>
    norm_num [finalizeDueSlots, finalizeCore, scenarioAStore, T0, sortByTs, insertAfterLe,
      kwhAt, bookLoopF, bookRecord, initialCursor, slotStartOfRat, slotStartUtc, fuelFor,
      getPriceComponents, priceFind, dictSet, trimBookedList, Int.fdiv]

/-- An element produced by `getLast?` is a member of the list. -/
theorem mem_of_getLastEq {α : Type} {l : List α} {a : α} (h : l.getLast? = some a) :
    a ∈ l := by
  have hmem : a ∈ l.getLast? := Option.mem_def.mpr h
  obtain ⟨hne, heq⟩ := List.mem_getLast?_eq_getLast hmem
  exact heq ▸ List.getLast_mem hne

/-- The initial cursor of `finalize_due_slots` is 15-minute aligned whenever
every booked start is. -/
theorem initialCursor_mod (st : Store) (h : ∀ b ∈ st.booked, b.start % 900 = 0) :
    initialCursor st % 900 = 0 := by
  unfold initialCursor
  cases hlast : st.booked.getLast? with
  | some b =>
    have hb := h b (mem_of_getLastEq hlast)
    show (b.start + 900) % 900 = 0
    omega
  | none =>
    cases hpts : sortByTs st.samples with
    | nil =>
      show (0 : Int) % 900 = 0
      decide
    | cons p rest =>
      show slotStartOfRat p.ts % 900 = 0
      unfold slotStartOfRat
      exact slotStartUtc_mod _

/-- The booked-list invariant survives any filter (both retention trims). -/
theorem bookedInv_filter (l : List BookedSlot) (p : BookedSlot → Bool)
    (h : BookedInv l) : BookedInv (l.filter p) :=
  ⟨h.1.sublist (List.filter_sublist l), fun b hb => h.2 b (List.mem_of_mem_filter hb)⟩

/-- A call that books nothing returns the store unchanged with count 0. -/
theorem finalizeDueSlots_of_core_nil (st : Store) (now wall : Int)
    (h : finalizeCore st now = []) : finalizeDueSlots st now wall = (st, 0) := by
  unfold finalizeDueSlots
  rw [h]
  simp

/-- A call that books `hd :: tl` appends it, trims at 400 days and marks
dirty. -/
theorem finalizeDueSlots_of_core_cons (st : Store) (now wall : Int)
    (hd : BookedSlot) (tl : List BookedSlot)
    (h : finalizeCore st now = hd :: tl) :
    finalizeDueSlots st now wall =
      ({ st with
          booked := trimBookedList (st.booked ++ hd :: tl) wall 400
          dirty := true }, (hd :: tl).length) := by
  unfold finalizeDueSlots
  rw [h]
  simp

/-- Claim C10 (confirmed): in every store state reachable from the empty store
by the sample / booking / price-upsert / trim operations, the booked starts
are strictly increasing and 15-minute aligned; moreover, within one
`finalize_due_slots` call, the newly appended starts form the consecutive
15-minute chain from the recomputed cursor (each is exactly 15 minutes after
the previous). -/
theorem C10_booked_ordering (st : Store) (nowF : Int) (h : Reachable st) :
    BookedInv st.booked ∧
    chain900B (initialCursor st) ((finalizeCore st nowF).map (fun b => b.start)) = true := by
  refine ⟨?_, finalizeCore_chain st nowF⟩
  induction h with
  | empty => exact ⟨List.Pairwise.nil, by simp [emptyStore]⟩
  | addSample st' ts kwh wall hr ih =>
    unfold addSample
    dsimp only
    split
    · exact ih
    · exact ih
  | setPrice st' t dyn base api hr ih => exact ih
  | trimPrices st' wall kd hr ih => exact ih
  | trimSamples st' wall kd hr ih => exact ih
  | trimBooked st' wall kd hr ih => exact bookedInv_filter _ _ ih
  | finalize st' now wall hr ih =>
    cases hcore : finalizeCore st' now with
    | nil =>
      rw [finalizeDueSlots_of_core_nil st' now wall hcore]
      exact ih
    | cons hd tl =>
      rw [finalizeDueSlots_of_core_cons st' now wall hd tl hcore]
      show BookedInv (trimBookedList (st'.booked ++ hd :: tl) wall 400)
      have hch := finalizeCore_chain st' now
      rw [hcore] at hch
      obtain ⟨hall, hpw⟩ := chain900B_spec _ _ hch
      have hc0 : initialCursor st' % 900 = 0 := initialCursor_mod st' ih.2
      have happ : BookedInv (st'.booked ++ hd :: tl) := by
        constructor
        · rw [List.pairwise_append]
          refine ⟨ih.1, (List.pairwise_map.mp hpw), ?_⟩
          intro a ha b hb
          have hbs : initialCursor st' ≤ b.start :=
            (hall b.start (List.mem_map_of_mem _ hb)).1
          obtain ⟨m, hm⟩ : ∃ m, st'.booked.getLast? = some m := by
            cases hb2 : st'.booked.getLast? with
            | none =>
              rw [List.getLast?_eq_none_iff] at hb2
              rw [hb2] at ha
              exact absurd ha (List.not_mem_nil a)
            | some m => exact ⟨m, rfl⟩
          have hle : a.start ≤ m.start := pairwise_le_getLast st'.booked a m ih.1 ha hm
          have hcur : initialCursor st' = m.start + 900 := by
            unfold initialCursor
            rw [hm]
          omega
        · intro b hb
          rcases List.mem_append.mp hb with hb | hb
          · exact ih.2 b hb
          · have := (hall b.start (List.mem_map_of_mem _ hb)).2
            omega
      exact bookedInv_filter _ _ happ

/-- Witness for C10: the empty store is reachable, its booked list satisfies
the invariant, and a finalize call from it yields a (trivially) 15-minute
chained list of new starts. -/
theorem C10_booked_ordering_witness :
    BookedInv emptyStore.booked ∧
    chain900B (initialCursor emptyStore)
      ((finalizeCore emptyStore 0).map (fun b => b.start)) = true :=
  C10_booked_ordering emptyStore 0 Reachable.empty

/-- Counterexample to claim C3: when the persisted booked list is not ordered
(starts 1800 then 0), the cursor recomputed after reload is 900 and the call
books slot 1800 again even though 1800 is already present. -/
theorem C3_cex :
    (1800 : Int) ∈ (finalizeCore (loadStore (asDict unsortedBookedStore)) 2760).map
        (fun b => b.start) ∧
    (1800 : Int) ∈ (loadStore (asDict unsortedBookedStore)).booked.map (fun b => b.start) := by
  constructor
  · rw [loadStore_asDict]
    norm_num [finalizeCore, unsortedBookedStore, sortByTs, insertAfterLe, kwhAt, bookLoopF,
      bookRecord, initialCursor, slotStartOfRat, slotStartUtc, fuelFor, getPriceComponents,
      priceFind, Int.fdiv]
  · rw [loadStore_asDict]
    norm_num [unsortedBookedStore]

/-- Claim C3 (amended): for every store state whose booked list has its
maximal start in the last position (true of every state the program itself
produces), persisting with `_as_dict`, reloading with `async_load`, and
calling `finalize_due_slots` books no `slot_start` already present in the
reloaded booked list: the cursor is recomputed from the persisted list. -/
theorem C3_no_double_booking (st : Store) (now : Int)
    (hmax : ∀ b ∈ st.booked, ∀ m, st.booked.getLast? = some m → b.start ≤ m.start) :
    ∀ b ∈ finalizeCore (loadStore (asDict st)) now,
      b.start ∉ (loadStore (asDict st)).booked.map (fun x => x.start) := by
  intro b hb hmem
  have hcore : finalizeCore { st with dirty := true } now = finalizeCore st now := rfl
  have hbk : ({ st with dirty := true } : Store).booked = st.booked := rfl
  rw [loadStore_asDict, hcore] at hb
  rw [loadStore_asDict, hbk] at hmem
  obtain ⟨a, ha, haeq⟩ := List.mem_map.mp hmem
  cases hlast : st.booked.getLast? with
  | none =>
    rw [List.getLast?_eq_none_iff] at hlast
    rw [hlast] at ha
    exact absurd ha (List.not_mem_nil a)
  | some m =>
    obtain ⟨-, hge, -, -⟩ := finalizeCore_mem st now b hb
    have hcur : initialCursor st = m.start + 900 := by
      unfold initialCursor
      rw [hlast]
    have hm := hmax a ha m hlast
    omega

/-- Witness for C3: the price-less store has an empty booked list (so its last
element is trivially maximal); after save, reload and finalize, the newly
booked slot 0 was not previously present. -/
theorem C3_no_double_booking_witness :
    (⟨0, 0, "unpriced", [], [], []⟩ : BookedSlot) ∈
        finalizeCore (loadStore (asDict unpricedStore)) 1860 ∧
    (⟨0, 0, "unpriced", [], [], []⟩ : BookedSlot).start ∉
      (loadStore (asDict unpricedStore)).booked.map (fun x => x.start) := by
  have hmax : ∀ b ∈ unpricedStore.booked, ∀ m, unpricedStore.booked.getLast? = some m →
      b.start ≤ m.start := by
    simp [unpricedStore]
  have hb : (⟨0, 0, "unpriced", [], [], []⟩ : BookedSlot) ∈
      finalizeCore (loadStore (asDict unpricedStore)) 1860 := by
    rw [loadStore_asDict]
    norm_num [finalizeCore, unpricedStore, sortByTs, insertAfterLe, kwhAt, bookLoopF,
      bookRecord, initialCursor, slotStartOfRat, slotStartUtc, fuelFor, getPriceComponents,
      priceFind, Int.fdiv]
  exact ⟨hb, C3_no_double_booking unpricedStore 1860 hmax _ hb⟩

/-- Counterexample to claim C1 (stated over every store state and any wall
clock): with the retention-trim clock more than 400 days past the booked slot
starts, the first call's bookings are trimmed away immediately and the second
identical call re-books them — it returns 2, not 0. -/
theorem C1_cex :
    (finalizeDueSlots (finalizeDueSlots oldSamplesStore 2000 34560901).1 2000 34560901).2 = 2 ∧
    (2 : Nat) ≠ 0 := by
  refine ⟨?_, by norm_num⟩
  have h1 : (finalizeDueSlots oldSamplesStore 2000 34560901).1 =
      { oldSamplesStore with booked := [], dirty := true } := by
    norm_num [finalizeDueSlots, finalizeCore, oldSamplesStore, sortByTs, insertAfterLe,
      kwhAt, bookLoopF, bookRecord, initialCursor, slotStartOfRat, slotStartUtc, fuelFor,
      getPriceComponents, priceFind, trimBookedList, Int.fdiv]
  rw [h1]
  norm_num [finalizeDueSlots, finalizeCore, oldSamplesStore, sortByTs, insertAfterLe,
    kwhAt, bookLoopF, bookRecord, initialCursor, slotStartOfRat, slotStartUtc, fuelFor,
    getPriceComponents, priceFind, trimBookedList, Int.fdiv]

/-- Claim C1 (amended): for every store state, calling `finalize_due_slots`
twice in a row with the same `now`, no samples added in between, and the
retention-trim wall clock equal to `now` for both calls, books nothing on the
second call (returns 0) and leaves the booked list unchanged. -/
theorem C1_idempotent (st : Store) (now : Int) :
    (finalizeDueSlots (finalizeDueSlots st now now).1 now now).2 = 0 ∧
    (finalizeDueSlots (finalizeDueSlots st now now).1 now now).1.booked =
      (finalizeDueSlots st now now).1.booked := by
  cases ha : finalizeCore st now with
  | nil =>
    have h1 := finalizeDueSlots_of_core_nil st now now ha
    rw [h1]
    dsimp only
    rw [h1]
    exact ⟨rfl, rfl⟩
  | cons hd tl =>
    have hne : (hd :: tl : List BookedSlot) ≠ [] := by simp
    have hlast : (finalizeCore st now).getLast? = some ((hd :: tl).getLast hne) := by
      rw [ha]
      exact List.getLast?_eq_getLast_of_ne_nil hne
    obtain ⟨-, -, hlt, hcut⟩ :=
      finalizeCore_mem st now _ (by rw [ha]; exact List.getLast_mem hne)
    have hstop := finalizeCore_getLast st now _ hlast
    obtain ⟨hsb1, hsb2⟩ := slotStartUtc_bounds (now - 60)
    have hkeep : now - 400 * 86400 ≤ ((hd :: tl).getLast hne).start := by
      rcases not_and_or.mp hstop with h | h
      · omega
      · omega
    have h1 := finalizeDueSlots_of_core_cons st now now hd tl ha
    have hx : (trimBookedList (st.booked ++ (hd :: tl)) now 400).getLast? =
        some ((hd :: tl).getLast hne) := by
      have hsplit : (hd :: tl : List BookedSlot) =
          (hd :: tl).dropLast ++ [(hd :: tl).getLast hne] :=
        (List.dropLast_append_getLast hne).symm
      rw [show st.booked ++ (hd :: tl) =
            (st.booked ++ (hd :: tl).dropLast) ++ [(hd :: tl).getLast hne] by
          rw [List.append_assoc, ← hsplit]]
      unfold trimBookedList
      rw [List.filter_append]
      have hcond : decide (now - 400 * 86400 ≤ ((hd :: tl).getLast hne).start) = true :=
        decide_eq_true hkeep
      have hkeepb : List.filter (fun b => decide (now - 400 * 86400 ≤ b.start))
          [(hd :: tl).getLast hne] = [(hd :: tl).getLast hne] := by
        simp only [List.filter_cons, List.filter_nil, hcond]
        rfl
      rw [hkeepb, List.getLast?_concat]
    have hcur2 : initialCursor (finalizeDueSlots st now now).1 =
        ((hd :: tl).getLast hne).start + 900 := by
      rw [h1]
      dsimp only
      unfold initialCursor
      rw [hx]
    have hcore2 : finalizeCore (finalizeDueSlots st now now).1 now = [] := by
      apply finalizeCore_of_stop
      rw [hcur2]
      rintro ⟨hp, hq⟩
      exact hstop ⟨hp, by omega⟩
    have h2 := finalizeDueSlots_of_core_nil (finalizeDueSlots st now now).1 now now hcore2
    rw [h2]
    exact ⟨rfl, rfl⟩

end TariffSaver
